import Mathlib

/-!
Verification of the cogeo-mosaic backend core (`cogeo_mosaic/backends/base.py`
and `cogeo_mosaic/utils.py`): the quadkey spatial index, the asset-resolution
cache, the mosaic update/merge protocol and the tile/point/bbox query paths.

Machine integers of the source are modelled with `Nat`; geographic coordinates
(Python floats used only through `min`/`max`/midpoint arithmetic) with `ℚ`.
External collaborators (morecantile's WebMercatorQuad tile matrix set,
rasterio's coordinate transforms, rio_tiler's readers) are modelled by their
documented semantics, either concretely (the quadtree arithmetic) or as
abstract function parameters (coordinate transforms, per-asset reads).
-/

namespace CogeoMosaic

/-- A slippy-map tile `(x, y, z)`, as `morecantile.Tile`. -/
structure Tile where
  x : Nat
  y : Nat
  z : Nat
deriving DecidableEq, Repr

/-- Quadkeys are strings of digits 0-3 in the source; modelled as the list of
digit values, most significant (coarsest zoom) first. -/
abbrev Quadkey := List Nat

/-- Model of `morecantile` `TileMatrixSet.parent` for the WebMercatorQuad
quadtree: the single parent tile, one zoom coarser. The source always
indexes `parent(tile)[0]`. -/
def tmsParent (t : Tile) : List Tile :=
  [⟨t.x / 2, t.y / 2, t.z - 1⟩]

/-- Model of `morecantile` `TileMatrixSet.children` for the WebMercatorQuad
quadtree: the four children one zoom finer. -/
def tmsChildren (t : Tile) : List Tile :=
  [⟨2 * t.x, 2 * t.y, t.z + 1⟩, ⟨2 * t.x + 1, 2 * t.y, t.z + 1⟩,
   ⟨2 * t.x + 1, 2 * t.y + 1, t.z + 1⟩, ⟨2 * t.x, 2 * t.y + 1, t.z + 1⟩]

/-- Digits of a quadkey for coordinates `(x, y)` from zoom `z` down: digit
`i` (counted from the deep end) combines bit `i` of `x` and bit `i` of `y`,
emitted from the most significant bit down. -/
def tmsQuadkeyAux (x y : Nat) : Nat → Quadkey
  | 0 => []
  | z + 1 => ((x >>> z) % 2 + 2 * ((y >>> z) % 2)) :: tmsQuadkeyAux x y z

/-- Model of `morecantile` `TileMatrixSet.quadkey`. -/
def tmsQuadkey (t : Tile) : Quadkey :=
  tmsQuadkeyAux t.x t.y t.z

/-- Model of `morecantile` `TileMatrixSet.quadkey_to_tile`: rebuild `(x, y)`
bit by bit from the digits, most significant first; the zoom is the digit
count.  For valid digits (`< 4`), `d % 2` is the x-bit and `d / 2` the
y-bit, exactly the `digit == "1" / "2" / "3"` branches of the source. -/
def tmsQuadkeyToTile (qk : Quadkey) : Tile :=
  qk.foldl (fun t d => ⟨2 * t.x + d % 2, 2 * t.y + d / 2, t.z + 1⟩) ⟨0, 0, 0⟩

/-- Axis-aligned geographic bounds `(xmin, ymin, xmax, ymax)`. -/
structure BBox where
  xmin : ℚ
  ymin : ℚ
  xmax : ℚ
  ymax : ℚ
deriving DecidableEq, Repr

/-- `cogeo_mosaic.utils.bbox_union`: component-wise min of mins, max of
maxes. -/
def bbox_union (bbox_1 bbox_2 : BBox) : BBox :=
  ⟨min bbox_1.xmin bbox_2.xmin, min bbox_1.ymin bbox_2.ymin,
   max bbox_1.xmax bbox_2.xmax, max bbox_1.ymax bbox_2.ymax⟩

/-- First-key lookup in an association list, the model of Python
`dict.__getitem__` / `dict.get`. -/
def lookupKey {α β : Type} [DecidableEq α] : List (α × β) → α → Option β
  | [], _ => none
  | (a, b) :: m, k => if a = k then some b else lookupKey m k

/-- Key assignment in an association list, the model of Python
`dict.__setitem__`: replace in place when the key exists, append otherwise. -/
def setKey {α β : Type} [DecidableEq α] : List (α × β) → α → β → List (α × β)
  | [], k, v => [(k, v)]
  | (a, b) :: m, k, v => if a = k then (k, v) :: m else (a, b) :: setKey m k v

/-- Model of `list(dict.fromkeys(l))`: keep the first occurrence of each
element, tracking the keys already inserted. -/
def fromKeysAux {α : Type} [DecidableEq α] (seen : List α) : List α → List α
  | [] => []
  | a :: l => if a ∈ seen then fromKeysAux seen l else a :: fromKeysAux (a :: seen) l

/-- `list(dict.fromkeys(l))` with an initially empty dict. -/
def dictFromKeys {α : Type} [DecidableEq α] (l : List α) : List α :=
  fromKeysAux [] l

/-- Specification-level first-occurrence deduplication: keep the head, drop
its later copies, recurse. -/
def dedupFirst {α : Type} [DecidableEq α] : List α → List α
  | [] => []
  | a :: l => a :: dedupFirst (l.filter (· ≠ a))
termination_by l => l.length
decreasing_by exact Nat.lt_succ_of_le (List.length_filter_le _ _)

/-- The MosaicJSON document (`cogeo_mosaic.mosaic.MosaicJSON` is not under
`src/`; its fields follow the document schema of the spec).  Modelled from
the spec: `version` is "monotonically increasing, incremented on every
successful update", modelled as a `Nat` with `_increase_version` adding one;
`quadkey_zoom` is optional; `tiles` maps quadkeys to ordered asset lists. -/
structure MosaicDef where
  version : Nat
  minzoom : Nat
  maxzoom : Nat
  quadkey_zoom : Option Nat
  bounds : BBox
  center : ℚ × ℚ × Nat
  tiles : List (Quadkey × List String)
deriving DecidableEq

/-- `BaseBackend.quadkey_zoom`: `self.mosaic_def.quadkey_zoom or
self.mosaic_def.minzoom` — Python `or` falls through to `minzoom` on a falsy
stored value, i.e. on `None` and on `0`. -/
def quadkey_zoomP (doc : MosaicDef) : Nat :=
  match doc.quadkey_zoom with
  | none => doc.minzoom
  | some q => if q = 0 then doc.minzoom else q

/-- `BaseBackend.find_quadkeys`: remap a query tile to index keys at
`quadkey_zoom`.  Finer query: walk up `tile.z - quadkey_zoom` parent steps
(`tile = self.tms.parent(tile)[0]`) and return the single quadkey.  Coarser
query: expand children `quadkey_zoom - tile.z` times
(`tiles = sum([self.tms.children(t) for t in tiles], [])`), filter to the
index zoom, return one quadkey per tile.  Equal zoom: the tile's own
quadkey. -/
def find_quadkeys (tile : Tile) (quadkey_zoom : Nat) : List Quadkey :=
  if tile.z > quadkey_zoom then
    let depth := tile.z - quadkey_zoom
    let t := (fun tt => (tmsParent tt).getD 0 tt)^[depth] tile
    [tmsQuadkey t]
  else if tile.z < quadkey_zoom then
    let depth := quadkey_zoom - tile.z
    let tiles := (fun ts => (ts.map tmsChildren).flatten)^[depth] [tile]
    let tiles := tiles.filter (fun t => t.z = quadkey_zoom)
    tiles.map tmsQuadkey
  else
    [tmsQuadkey tile]

/-- Body of `BaseBackend.get_assets` (the `@cached` wrapper is modelled
separately as `getAssetsCached`): resolve quadkeys for the tile, look each
up in `tiles` (absent key → `[]`), chain the asset lists in key order and
deduplicate with `dict.fromkeys`. -/
def get_assets (doc : MosaicDef) (x y z : Nat) : List String :=
  let tile : Tile := ⟨x, y, z⟩
  let quadkeys := find_quadkeys tile (quadkey_zoomP doc)
  dictFromKeys ((quadkeys.map (fun qk => (lookupKey doc.tiles qk).getD [])).flatten)

/-- A coordinate reference system, identified by its EPSG code (the model of
`rasterio.crs.CRS`, compared only for equality in the source). -/
structure CRS where
  epsg : Nat
deriving DecidableEq, Repr

/-- `rio_tiler.constants.WGS84_CRS`. -/
def WGS84_CRS : CRS := ⟨4326⟩

/-- The backend state the claims touch: `input` (catalog identity),
the mosaic document, the geographic CRS and the denormalized `bounds`
copied from the document (`__attrs_post_init__` / `update`). -/
structure Backend where
  input : String
  mosaic_def : MosaicDef
  geographic_crs : CRS
  bounds : BBox
deriving DecidableEq

/-- Modelled from the spec: `get_hash` (in
`cogeo_mosaic/backends/utils.py`, not under `src/`) is "a stable hash over
the full index content … must change whenever `tiles`, `bounds`, `version`,
or zoom fields change, and must be deterministic under re-serialization".
The ideal such fingerprint is the document content itself, which this model
uses. -/
def get_hash (doc : MosaicDef) : MosaicDef := doc

/-- `BaseBackend.mosaicid`: the content fingerprint of the current
document. -/
def mosaicid (B : Backend) : MosaicDef := get_hash B.mosaic_def

/-- The key built by the `@cached` decorator on `get_assets`:
`hashkey(self.input, x, y, z, self.mosaicid)`. -/
structure CacheKey where
  input : String
  x : Nat
  y : Nat
  z : Nat
  fp : MosaicDef
deriving DecidableEq

/-- The TTL cache state: stored `(key, asset list)` entries. -/
abbrev Cache := List (CacheKey × List String)

/-- `cachetools.cached` wrapper around `get_assets`: on a key hit return the
stored list unchanged, on a miss compute the body and store the result. -/
def getAssetsCached (cache : Cache) (B : Backend) (x y z : Nat) :
    List String × Cache :=
  let key : CacheKey := ⟨B.input, x, y, z, mosaicid B⟩
  match lookupKey cache key with
  | some v => (v, cache)
  | none =>
      let v := get_assets B.mosaic_def x y z
      (v, (key, v) :: cache)

/-- `cogeo_mosaic.utils.transform_point`, with the external
`rasterio.warp.transform` supplied as the parameter `T`: transform only when
the two CRS differ. -/
def transform_point (T : CRS → CRS → ℚ × ℚ → ℚ × ℚ)
    (lng lat : ℚ) (src_crs dst_crs : CRS) : ℚ × ℚ :=
  if src_crs ≠ dst_crs then T src_crs dst_crs (lng, lat) else (lng, lat)

/-- `BaseBackend.assets_for_point`, with `tileAt` the external
`TileMatrixSet.tile(lng, lat, zoom)`: transform the point to the geographic
CRS, take the containing tile at `quadkey_zoom`, resolve its assets. -/
def assets_for_point (T : CRS → CRS → ℚ × ℚ → ℚ × ℚ)
    (tileAt : ℚ → ℚ → Nat → Tile) (B : Backend) (lng lat : ℚ)
    (coord_crs : CRS := WGS84_CRS) : List String :=
  let p := transform_point T lng lat coord_crs B.geographic_crs
  let tile := tileAt p.1 p.2 (quadkey_zoomP B.mosaic_def)
  get_assets B.mosaic_def tile.x tile.y tile.z

/-- `BaseBackend.assets_for_bbox`, with `TB` the external
`rasterio.warp.transform_bounds` and `tileAt` as above: transform the bbox
when the CRS differ, enumerate the inclusive tile rectangle between the
top-left and bottom-right corner tiles (x outer, y inner, as the source's
list comprehension), chain `get_assets` over it and deduplicate with
`dict.fromkeys`. -/
def assets_for_bbox (TB : CRS → CRS → BBox → BBox)
    (tileAt : ℚ → ℚ → Nat → Tile) (B : Backend)
    (xmin ymin xmax ymax : ℚ) (coord_crs : CRS := WGS84_CRS) : List String :=
  let b : BBox :=
    if coord_crs ≠ B.geographic_crs then
      TB coord_crs B.geographic_crs ⟨xmin, ymin, xmax, ymax⟩
    else ⟨xmin, ymin, xmax, ymax⟩
  let qz := quadkey_zoomP B.mosaic_def
  let tl_tile := tileAt b.xmin b.ymax qz
  let br_tile := tileAt b.xmax b.ymin qz
  let tiles := (List.range' tl_tile.x (br_tile.x + 1 - tl_tile.x)).flatMap
    (fun x => (List.range' tl_tile.y (br_tile.y + 1 - tl_tile.y)).map
      (fun y => (x, y, qz)))
  dictFromKeys
    ((tiles.map (fun t => get_assets B.mosaic_def t.1 t.2.1 t.2.2)).flatten)

/-- Errors a query can surface: `cogeo_mosaic.errors.NoAssetFoundError`, or
an error of the external read capability (a `rio_tiler` exception, which is
a different type from `NoAssetFoundError`). -/
inductive QueryError (ε : Type) where
  | noAssetFound (msg : String)
  | readError (e : ε)
deriving DecidableEq

/-- `BaseBackend.tile`, with the external `rio_tiler.mosaic.mosaic_reader`
(and the per-asset `_reader` closure it drives) abstracted as `mosaicRead`:
resolve assets, raise `NoAssetFoundError` when the list is empty before any
read, optionally reverse, then hand the ordered list to the reader. -/
def tileQuery {ε α : Type} (mosaicRead : List String → Except ε α)
    (B : Backend) (x y z : Nat) (reverse : Bool := false) :
    Except (QueryError ε) α :=
  let mosaic_assets := get_assets B.mosaic_def x y z
  if mosaic_assets = [] then
    .error (.noAssetFound "No assets found for tile")
  else
    let mosaic_assets := if reverse then mosaic_assets.reverse else mosaic_assets
    (mosaicRead mosaic_assets).mapError .readError

/-- Per-asset point-read failures of the external reader:
`rio_tiler.errors.PointOutsideBounds` or anything else. -/
inductive PtErr where
  | pointOutsideBounds
  | other (msg : String)
deriving DecidableEq

/-- Model of `rio_tiler.tasks.multi_values` with
`allowed_exceptions=(PointOutsideBounds,)`: apply the reader to every asset
in order, keep `(asset, value)` pairs, swallow `PointOutsideBounds`
(excluding the asset from the result), propagate any other failure. -/
def multi_values {V : Type} (reader : String → Except PtErr V) :
    List String → Except PtErr (List (String × V))
  | [] => .ok []
  | a :: rest =>
    match reader a with
    | .ok v => (multi_values reader rest).map (fun l => (a, v) :: l)
    | .error .pointOutsideBounds => multi_values reader rest
    | .error e => .error e

/-- `BaseBackend.point`, with the external per-asset `src_dst.point`
abstracted as `readPt`.  Note the source resolves assets through
`self.assets_for_point(lon, lat)` — without forwarding `coord_crs`, so
resolution uses the default `WGS84_CRS` — and only the per-asset `_reader`
closure transforms `(lon, lat)` from `coord_crs` to the geographic CRS. -/
def point {V : Type} (T : CRS → CRS → ℚ × ℚ → ℚ × ℚ)
    (tileAt : ℚ → ℚ → Nat → Tile)
    (readPt : String → ℚ → ℚ → CRS → Except PtErr V)
    (B : Backend) (lon lat : ℚ) (reverse : Bool := false)
    (coord_crs : CRS := WGS84_CRS) :
    Except (QueryError PtErr) (List (String × V)) :=
  let mosaic_assets := assets_for_point T tileAt B lon lat
  if mosaic_assets = [] then
    .error (.noAssetFound "No assets found for point")
  else
    let mosaic_assets := if reverse then mosaic_assets.reverse else mosaic_assets
    let rdr := fun (asset : String) =>
      let p := transform_point T lon lat coord_crs B.geographic_crs
      readPt asset p.1 p.2 B.geographic_crs
    (multi_values rdr mosaic_assets).mapError .readError

/-- One iteration of the merge loop of `BaseBackend.update`: turn the
candidate quadkey back into its tile, fetch the existing assets through
`get_assets` on the document mutated so far, and store the new assets
before or after them according to `add_first`. -/
def updateTilesStep (add_first : Bool) (doc : MosaicDef)
    (entry : Quadkey × List String) : MosaicDef :=
  let tile := tmsQuadkeyToTile entry.1
  let assets := get_assets doc tile.x tile.y tile.z
  let assets := if add_first then entry.2 ++ assets else assets ++ entry.2
  { doc with tiles := setKey doc.tiles entry.1 assets }

/-- `BaseBackend.update`.  `MosaicJSON.from_features` (not under `src/`)
reduces the new observations to a candidate index at the backend's
`quadkey_zoom`; the candidate `new_mosaic` is taken as the input here.
After the merge loop the bounds become
`bbox_union(new_mosaic.bounds, self.mosaic_def.bounds)`, the version is
increased (`_increase_version`, not under `src/`, modelled from the spec as
an increment), the center becomes the midpoint of the new bounds at
`minzoom`, and the backend's denormalized `bounds` is refreshed. -/
def update (B : Backend) (new_mosaic : MosaicDef)
    (add_first : Bool := true) : Backend :=
  let doc := new_mosaic.tiles.foldl (updateTilesStep add_first) B.mosaic_def
  let bounds := bbox_union new_mosaic.bounds doc.bounds
  let doc := { doc with
    version := doc.version + 1
    bounds := bounds
    center := ((bounds.xmin + bounds.xmax) / 2,
               (bounds.ymin + bounds.ymax) / 2,
               doc.minzoom) }
  { B with mosaic_def := doc, bounds := bounds }

/-- The quadtree ancestor of a tile at a coarser (or equal) zoom, in closed
form: drop `t.z - zoom` low bits of each coordinate. -/
def ancestorAt (t : Tile) (zoom : Nat) : Tile :=
  ⟨t.x / 2 ^ (t.z - zoom), t.y / 2 ^ (t.z - zoom), zoom⟩

/-- All descendants of a tile `n` zoom levels finer, by repeated expansion
through `tmsChildren`. -/
def descendants (a : Tile) (n : Nat) : List Tile :=
  (fun ts => (ts.map tmsChildren).flatten)^[n] [a]

/-- Specification-level form of `get_assets`, written from the spec's words:
concatenate `tiles[key]` (absent → empty) in key-resolution order and
deduplicate preserving first occurrence. -/
def getAssetsSpec (doc : MosaicDef) (x y z : Nat) : List String :=
  dedupFirst
    (((find_quadkeys ⟨x, y, z⟩ (quadkey_zoomP doc)).map
      (fun qk => (lookupKey doc.tiles qk).getD [])).flatten)

/-- Specification-level form of `assets_for_bbox`: the first-occurrence-order
deduplicated union of `get_assets` over the inclusive rectangular tile range
between the top-left and bottom-right corner tiles, scanned x-major. -/
def assetsForBBoxSpec (TB : CRS → CRS → BBox → BBox)
    (tileAt : ℚ → ℚ → Nat → Tile) (B : Backend)
    (xmin ymin xmax ymax : ℚ) (coord_crs : CRS := WGS84_CRS) : List String :=
  let b : BBox :=
    if coord_crs ≠ B.geographic_crs then
      TB coord_crs B.geographic_crs ⟨xmin, ymin, xmax, ymax⟩
    else ⟨xmin, ymin, xmax, ymax⟩
  let qz := quadkey_zoomP B.mosaic_def
  let tl_tile := tileAt b.xmin b.ymax qz
  let br_tile := tileAt b.xmax b.ymin qz
  let xs := List.range' tl_tile.x (br_tile.x + 1 - tl_tile.x)
  let ys := List.range' tl_tile.y (br_tile.y + 1 - tl_tile.y)
  dedupFirst
    (((xs.product ys).map
      (fun p => get_assets B.mosaic_def p.1 p.2 qz)).flatten)

/-- Containment of one bounding rectangle in another. -/
def bboxContains (outer inner : BBox) : Prop :=
  outer.xmin ≤ inner.xmin ∧ outer.ymin ≤ inner.ymin ∧
  inner.xmax ≤ outer.xmax ∧ inner.ymax ≤ outer.ymax

/-- A small bounding box shared by the concrete witness documents. -/
def exBounds : BBox := ⟨0, 0, 1, 1⟩

/-- Witness document for the merge-order claim: key `0123` holds `a.tif`. -/
def exDocC4 : MosaicDef :=
  ⟨1, 4, 8, some 4, exBounds, (0, 0, 4), [([0, 1, 2, 3], ["a.tif"])]⟩

/-- Witness backend for the merge-order claim. -/
def exBackC4 : Backend := ⟨"mosaic.json", exDocC4, WGS84_CRS, exBounds⟩

/-- Witness candidate index adding `b.tif` under the same key. -/
def exNewC4 : MosaicDef :=
  ⟨1, 4, 8, some 4, exBounds, (0, 0, 4), [([0, 1, 2, 3], ["b.tif"])]⟩

/-- Counterexample document whose stored entry holds a duplicate. -/
def exDocC5 : MosaicDef :=
  ⟨1, 1, 8, some 1, exBounds, (0, 0, 1), [([0], ["a.tif", "a.tif"])]⟩

/-- Counterexample backend. -/
def exBackC5 : Backend := ⟨"mosaic.json", exDocC5, WGS84_CRS, exBounds⟩

/-- Counterexample candidate index. -/
def exNewC5 : MosaicDef :=
  ⟨1, 1, 8, some 1, exBounds, (0, 0, 1), [([0], ["b.tif"])]⟩

/-- Backend that resolves no assets anywhere (empty `tiles`). -/
def exBackC7 : Backend :=
  ⟨"mosaic.json", ⟨1, 1, 8, some 1, exBounds, (0, 0, 1), []⟩, WGS84_CRS,
    exBounds⟩

/-- The Web-Mercator CRS, EPSG 3857. -/
def EPSG3857 : CRS := ⟨3857⟩

/-- A concrete coordinate transform: scales by `1 / 100000`. -/
def exT8 : CRS → CRS → ℚ × ℚ → ℚ × ℚ :=
  fun _ _ p => (p.1 / 100000, p.2 / 100000)

/-- A concrete tile locator: `(10, 20)` lies in tile `(1, 1, 1)` (quadkey
`3`), everything else in tile `(0, 0, 1)` (quadkey `0`). -/
def exTileAt8 : ℚ → ℚ → Nat → Tile :=
  fun a b _ => if a = 10 ∧ b = 20 then ⟨1, 1, 1⟩ else ⟨0, 0, 1⟩

/-- Document with a single asset under quadkey `3` (tile `(1, 1, 1)`). -/
def exDocC8 : MosaicDef :=
  ⟨1, 1, 8, some 1, exBounds, (0, 0, 1), [([3], ["a.tif"])]⟩

/-- Backend whose geographic CRS is WGS84. -/
def exBackC8 : Backend := ⟨"mosaic.json", exDocC8, WGS84_CRS, exBounds⟩

/-- A per-asset point reader that always succeeds. -/
def exReadC8 : String → ℚ → ℚ → CRS → Except PtErr Nat := fun _ _ _ _ => .ok 0

/-- Document with two assets under quadkey `0`. -/
def exDocC9 : MosaicDef :=
  ⟨1, 1, 8, some 1, exBounds, (0, 0, 1), [([0], ["a1.tif", "a2.tif"])]⟩

/-- Backend for the point-query claim. -/
def exBackC9 : Backend := ⟨"mosaic.json", exDocC9, WGS84_CRS, exBounds⟩

/-- Tile locator sending every point to tile `(0, 0, z)`. -/
def exTileAt9 : ℚ → ℚ → Nat → Tile := fun _ _ z => ⟨0, 0, z⟩

/-- Identity coordinate transform. -/
def exT9 : CRS → CRS → ℚ × ℚ → ℚ × ℚ := fun _ _ p => p

/-- Per-asset reader: asset 1 reports the point outside its coverage, asset
2 yields the value 7. -/
def exReadC9 : String → ℚ → ℚ → CRS → Except PtErr Nat :=
  fun a _ _ _ => if a = "a1.tif" then .error .pointOutsideBounds else .ok 7

theorem div2_div_pow (x n : Nat) : x / 2 / 2 ^ n = x / 2 ^ (n + 1) := by
  rw [Nat.div_div_eq_div_mul, ← pow_succ']

theorem parent_iterate (d : Nat) :
    ∀ t : Tile, (fun tt => (tmsParent tt).getD 0 tt)^[d] t =
      ⟨t.x / 2 ^ d, t.y / 2 ^ d, t.z - d⟩ := by
  induction d with
  | zero => intro t; simp
  | succ n ih =>
      intro t
      rw [Function.iterate_succ_apply, ih]
      have hstep : (tmsParent t).getD 0 t = (⟨t.x / 2, t.y / 2, t.z - 1⟩ : Tile) := rfl
      rw [hstep]
      simp only [Tile.mk.injEq]
      refine ⟨div2_div_pow _ _, div2_div_pow _ _, by omega⟩

theorem mem_tmsChildren (u t : Tile) :
    t ∈ tmsChildren u ↔ t.z = u.z + 1 ∧ t.x / 2 = u.x ∧ t.y / 2 = u.y := by
  cases u with
  | mk ux uy uz =>
      cases t with
      | mk tx ty tz =>
          simp only [tmsChildren, List.mem_cons, List.mem_singleton,
            Tile.mk.injEq, List.not_mem_nil, or_false]
          omega

theorem mem_descendants (n : Nat) :
    ∀ a t : Tile, t ∈ descendants a n ↔
      t.z = a.z + n ∧ t.x / 2 ^ n = a.x ∧ t.y / 2 ^ n = a.y := by
  induction n with
  | zero =>
      intro a t
      cases a with
      | mk ax ay az =>
          cases t with
          | mk tx ty tz =>
            simp [descendants, Tile.mk.injEq]
            omega
  | succ n ih =>
      intro a t
      have hd : descendants a (n + 1) =
          ((descendants a n).map tmsChildren).flatten := by
        unfold descendants
        rw [Function.iterate_succ_apply']
      rw [hd]
      simp only [List.mem_flatten, List.mem_map]
      constructor
      · rintro ⟨cs, ⟨u, hu, rfl⟩, ht⟩
        rw [mem_tmsChildren] at ht
        rw [ih] at hu
        obtain ⟨hz, hx, hy⟩ := hu
        obtain ⟨hz', hx', hy'⟩ := ht
        refine ⟨by omega, ?_, ?_⟩
        · rw [← div2_div_pow, hx', hx]
        · rw [← div2_div_pow, hy', hy]
      · rintro ⟨hz, hx, hy⟩
        refine ⟨tmsChildren ⟨t.x / 2, t.y / 2, a.z + n⟩,
          ⟨⟨t.x / 2, t.y / 2, a.z + n⟩, ?_, rfl⟩, ?_⟩
        · rw [ih]
          refine ⟨rfl, ?_, ?_⟩
          · rw [div2_div_pow, hx]
          · rw [div2_div_pow, hy]
        · rw [mem_tmsChildren]
          refine ⟨?_, rfl, rfl⟩
          show t.z = a.z + n + 1
          omega

theorem dedupFirst_nil {α : Type} [DecidableEq α] :
    dedupFirst ([] : List α) = [] := by
  simp [dedupFirst]

theorem dedupFirst_cons {α : Type} [DecidableEq α] (a : α) (l : List α) :
    dedupFirst (a :: l) = a :: dedupFirst (l.filter (· ≠ a)) := by
  simp [dedupFirst]

theorem fromKeysAux_eq {α : Type} [DecidableEq α] :
    ∀ (l seen : List α),
      fromKeysAux seen l = dedupFirst (l.filter (fun x => x ∉ seen))
  | [], _ => by simp [fromKeysAux, dedupFirst_nil]
  | a :: l, seen => by
    rw [List.filter_cons]
    by_cases h : a ∈ seen
    · rw [fromKeysAux, if_pos h, if_neg (by simp [h])]
      exact fromKeysAux_eq l seen
    · rw [fromKeysAux, if_neg h, if_pos (by simp [h])]
      rw [dedupFirst_cons, fromKeysAux_eq l (a :: seen), List.filter_filter]
      congr 1
      congr 1
      apply List.filter_congr
      intro x _
      simp [List.mem_cons, not_or]

theorem dictFromKeys_eq_dedupFirst {α : Type} [DecidableEq α] (l : List α) :
    dictFromKeys l = dedupFirst l := by
  rw [dictFromKeys, fromKeysAux_eq]
  congr 1
  simp

theorem dedupFirst_of_nodup {α : Type} [DecidableEq α] :
    ∀ l : List α, l.Nodup → dedupFirst l = l
  | [], _ => dedupFirst_nil
  | a :: l, h => by
    rw [dedupFirst_cons]
    have hal : a ∉ l := (List.nodup_cons.mp h).1
    have : l.filter (· ≠ a) = l := by
      apply List.filter_eq_self.mpr
      intro x hx
      simp only [decide_eq_true_eq]
      exact fun hxa => hal (hxa ▸ hx)
    rw [this, dedupFirst_of_nodup l (List.nodup_cons.mp h).2]

end CogeoMosaic

namespace CogeoMosaic

/-- C1: for a query tile strictly finer than the index zoom,
`find_quadkeys` returns exactly one quadkey, the quadkey of the unique
ancestor of the tile at that zoom (unique in the sense that it is the only
tile at the index zoom whose quadtree descendants include the query tile);
at equal zoom it returns exactly the tile's own quadkey. -/
theorem find_quadkeys_finer_eq_ancestor (t : Tile) (qz : Nat) :
    (qz < t.z →
      find_quadkeys t qz = [tmsQuadkey (ancestorAt t qz)] ∧
      ∀ a : Tile, a.z = qz →
        (t ∈ descendants a (t.z - qz) ↔ a = ancestorAt t qz)) ∧
    (t.z = qz → find_quadkeys t qz = [tmsQuadkey t]) := by
  constructor
  · intro h
    constructor
    · rw [find_quadkeys, if_pos h]
      show [tmsQuadkey ((fun tt => (tmsParent tt).getD 0 tt)^[t.z - qz] t)] = _
      rw [parent_iterate]
      have : t.z - (t.z - qz) = qz := by omega
      rw [this]
      rfl
    · intro a ha
      rw [mem_descendants]
      cases a with
      | mk ax ay az =>
          simp only at ha
          subst ha
          simp only [ancestorAt, Tile.mk.injEq]
          constructor
          · rintro ⟨_, hx, hy⟩
            exact ⟨hx.symm, hy.symm, trivial⟩
          · rintro ⟨hx, hy, -⟩
            exact ⟨by omega, hx.symm, hy.symm⟩
  · intro h
    rw [find_quadkeys, if_neg (by omega), if_neg (by omega)]

/-- C3: `get_assets` is the first-occurrence deduplication of the
concatenation, in quadkey-resolution order, of `tiles[qk]` (absent key →
empty) over the resolved quadkeys; `assets_for_bbox` is the
first-occurrence deduplication of the union of `get_assets` over the
inclusive rectangular tile range between the top-left and bottom-right
corner tiles at the index zoom. -/
theorem get_assets_and_bbox_spec (doc : MosaicDef) (x y z : Nat)
    (TB : CRS → CRS → BBox → BBox) (tileAt : ℚ → ℚ → Nat → Tile)
    (B : Backend) (xmin ymin xmax ymax : ℚ) (coord_crs : CRS) :
    get_assets doc x y z = getAssetsSpec doc x y z ∧
    assets_for_bbox TB tileAt B xmin ymin xmax ymax coord_crs =
      assetsForBBoxSpec TB tileAt B xmin ymin xmax ymax coord_crs := by
  constructor
  · simp only [get_assets, getAssetsSpec]
    rw [dictFromKeys_eq_dedupFirst]
  · simp only [assets_for_bbox, assetsForBBoxSpec]
    rw [dictFromKeys_eq_dedupFirst]
    congr 1
    simp [List.product, List.map_flatMap, List.map_map, Function.comp_def]

/-- Witness for C1 at tile `(5, 3, 4)` with index zoom 2 (finer case) and
at tile `(5, 3, 2)` with index zoom 2 (equal case). -/
theorem find_quadkeys_finer_eq_ancestor_witness :
    find_quadkeys ⟨5, 3, 4⟩ 2 = [tmsQuadkey (ancestorAt ⟨5, 3, 4⟩ 2)] ∧
    (⟨5, 3, 4⟩ : Tile) ∈ descendants (ancestorAt ⟨5, 3, 4⟩ 2) 2 ∧
    find_quadkeys ⟨5, 3, 2⟩ 2 = [tmsQuadkey ⟨5, 3, 2⟩] := by
  refine ⟨((find_quadkeys_finer_eq_ancestor ⟨5, 3, 4⟩ 2).1 (by decide)).1, ?_,
    (find_quadkeys_finer_eq_ancestor ⟨5, 3, 2⟩ 2).2 rfl⟩
  exact (((find_quadkeys_finer_eq_ancestor ⟨5, 3, 4⟩ 2).1 (by decide)).2
    (ancestorAt ⟨5, 3, 4⟩ 2) rfl).mpr rfl

/-- C10: the `quadkey_zoom` property replaces any falsy stored value
(`None` or `0`) by `minzoom`, so a stored `0` with positive `minzoom` is
never used, and the property can only be `0` when `minzoom` itself is. -/
theorem quadkey_zoom_falsy_fallback (doc : MosaicDef) :
    (doc.quadkey_zoom = some 0 ∧ 0 < doc.minzoom →
      quadkey_zoomP doc = doc.minzoom) ∧
    (doc.quadkey_zoom = none ∨ doc.quadkey_zoom = some 0 →
      quadkey_zoomP doc = doc.minzoom) ∧
    (quadkey_zoomP doc = 0 → doc.minzoom = 0) := by
  refine ⟨?_, ?_, ?_⟩
  · rintro ⟨h, -⟩
    simp [quadkey_zoomP, h]
  · rintro (h | h) <;> simp [quadkey_zoomP, h]
  · intro h
    cases hq : doc.quadkey_zoom with
    | none => simpa [quadkey_zoomP, hq] using h
    | some q =>
        by_cases hq0 : q = 0
        · simpa [quadkey_zoomP, hq, hq0] using h
        · simp [quadkey_zoomP, hq, hq0] at h

/-- Witness for C10: a document storing `quadkey_zoom = 0` with
`minzoom = 3` resolves quadkeys at zoom 3. -/
theorem quadkey_zoom_falsy_fallback_witness :
    quadkey_zoomP ⟨1, 3, 8, some 0, ⟨-180, -90, 180, 90⟩, (0, 0, 3), []⟩ = 3 :=
  (quadkey_zoom_falsy_fallback
    ⟨1, 3, 8, some 0, ⟨-180, -90, 180, 90⟩, (0, 0, 3), []⟩).1 ⟨rfl, by decide⟩

/-- Helper: a cache lookup misses when no stored key equals the probe. -/
theorem lookupKey_eq_none {α β : Type} [DecidableEq α] :
    ∀ (m : List (α × β)) (k : α), (∀ e ∈ m, e.1 ≠ k) → lookupKey m k = none
  | [], _, _ => rfl
  | (a, b) :: m, k, h => by
    rw [lookupKey, if_neg (h (a, b) (List.mem_cons_self _ _))]
    exact lookupKey_eq_none m k (fun e he => h e (List.mem_cons_of_mem _ he))

/-- C2: the cache key of `get_assets` includes the document fingerprint
(`mosaicid`); the fingerprint differs whenever `tiles`, `bounds` or
`version` differ, so after such an update every entry cached against the
pre-update document is unreachable — the lookup misses and the fresh
document's assets are computed and returned, with no explicit
invalidation. -/
theorem cached_get_assets_never_stale (Bold Bnew : Backend) (cache : Cache)
    (x y z : Nat)
    (hdiff : Bold.mosaic_def.tiles ≠ Bnew.mosaic_def.tiles ∨
      Bold.mosaic_def.bounds ≠ Bnew.mosaic_def.bounds ∨
      Bold.mosaic_def.version ≠ Bnew.mosaic_def.version)
    (hcache : ∀ e ∈ cache, (e.1 : CacheKey).fp = mosaicid Bold) :
    mosaicid Bold ≠ mosaicid Bnew ∧
    lookupKey cache ⟨Bnew.input, x, y, z, mosaicid Bnew⟩ = none ∧
    (getAssetsCached cache Bnew x y z).1 = get_assets Bnew.mosaic_def x y z := by
  have hfp : mosaicid Bold ≠ mosaicid Bnew := by
    intro h
    rw [mosaicid, mosaicid, get_hash, get_hash] at h
    rcases hdiff with hd | hd | hd <;> exact hd (by rw [h])
  have hnone : lookupKey cache ⟨Bnew.input, x, y, z, mosaicid Bnew⟩ = none := by
    apply lookupKey_eq_none
    intro e he heq
    exact hfp (by rw [← hcache e he, heq])
  refine ⟨hfp, hnone, ?_⟩
  rw [getAssetsCached]
  rw [hnone]

/-- Witness for C2: after a version bump the single entry cached against the
old document is not consulted. -/
theorem cached_get_assets_never_stale_witness :
    (getAssetsCached
      [(⟨"m", 0, 0, 1,
          mosaicid ⟨"m", ⟨1, 1, 8, some 1, ⟨0, 0, 1, 1⟩, (0, 0, 1),
            [([0], ["old.tif"])]⟩, WGS84_CRS, ⟨0, 0, 1, 1⟩⟩⟩, ["stale"])]
      ⟨"m", ⟨2, 1, 8, some 1, ⟨0, 0, 1, 1⟩, (0, 0, 1),
        [([0], ["old.tif", "new.tif"])]⟩, WGS84_CRS, ⟨0, 0, 1, 1⟩⟩
      0 0 1).1 = ["old.tif", "new.tif"] := by
  have h := cached_get_assets_never_stale
    ⟨"m", ⟨1, 1, 8, some 1, ⟨0, 0, 1, 1⟩, (0, 0, 1),
      [([0], ["old.tif"])]⟩, WGS84_CRS, ⟨0, 0, 1, 1⟩⟩
    ⟨"m", ⟨2, 1, 8, some 1, ⟨0, 0, 1, 1⟩, (0, 0, 1),
      [([0], ["old.tif", "new.tif"])]⟩, WGS84_CRS, ⟨0, 0, 1, 1⟩⟩
    [(⟨"m", 0, 0, 1,
        mosaicid ⟨"m", ⟨1, 1, 8, some 1, ⟨0, 0, 1, 1⟩, (0, 0, 1),
          [([0], ["old.tif"])]⟩, WGS84_CRS, ⟨0, 0, 1, 1⟩⟩⟩, ["stale"])]
    0 0 1 (by right; right; decide) (by intro e he; simp at he; subst he; rfl)
  rw [h.2.2]
  rfl

theorem lookupKey_setKey_self {α β : Type} [DecidableEq α] :
    ∀ (m : List (α × β)) (k : α) (v : β),
      lookupKey (setKey m k v) k = some v
  | [], k, v => by simp [setKey, lookupKey]
  | (a, b) :: m, k, v => by
    by_cases h : a = k
    · rw [setKey, if_pos h, lookupKey, if_pos rfl]
    · rw [setKey, if_neg h, lookupKey, if_neg h]
      exact lookupKey_setKey_self m k v

theorem lookupKey_setKey_ne {α β : Type} [DecidableEq α] :
    ∀ (m : List (α × β)) (k' k : α) (v : β), k' ≠ k →
      lookupKey (setKey m k' v) k = lookupKey m k
  | [], k', k, v, h => by
    simp [setKey, lookupKey, h]
  | (a, b) :: m, k', k, v, h => by
    by_cases ha : a = k'
    · rw [setKey, if_pos ha, lookupKey, if_neg h, lookupKey, if_neg (ha ▸ h)]
    · rw [setKey, if_neg ha, lookupKey, lookupKey]
      by_cases hk : a = k
      · rw [if_pos hk, if_pos hk]
      · rw [if_neg hk, if_neg hk]
        exact lookupKey_setKey_ne m k' k v h

/-- The merge loop of `update` only touches the `tiles` field of the
document. -/
theorem foldl_updateTilesStep_fields (af : Bool) :
    ∀ (l : List (Quadkey × List String)) (d : MosaicDef),
      (l.foldl (updateTilesStep af) d).version = d.version ∧
      (l.foldl (updateTilesStep af) d).minzoom = d.minzoom ∧
      (l.foldl (updateTilesStep af) d).maxzoom = d.maxzoom ∧
      (l.foldl (updateTilesStep af) d).quadkey_zoom = d.quadkey_zoom ∧
      (l.foldl (updateTilesStep af) d).bounds = d.bounds ∧
      (l.foldl (updateTilesStep af) d).center = d.center
  | [], _ => ⟨rfl, rfl, rfl, rfl, rfl, rfl⟩
  | e :: l, d => by
    rw [List.foldl_cons]
    exact foldl_updateTilesStep_fields af l (updateTilesStep af d e)

theorem quadkey_zoomP_foldl_updateTilesStep (af : Bool)
    (l : List (Quadkey × List String)) (d : MosaicDef) :
    quadkey_zoomP (l.foldl (updateTilesStep af) d) = quadkey_zoomP d := by
  obtain ⟨-, hmin, -, hqz, -, -⟩ := foldl_updateTilesStep_fields af l d
  rw [quadkey_zoomP, quadkey_zoomP, hmin, hqz]

/-- Merge-loop steps for other keys do not disturb a key's entry. -/
theorem foldl_updateTilesStep_lookup_ne (af : Bool) (qk : Quadkey) :
    ∀ (l : List (Quadkey × List String)) (d : MosaicDef),
      (∀ e ∈ l, e.1 ≠ qk) →
      lookupKey (l.foldl (updateTilesStep af) d).tiles qk =
        lookupKey d.tiles qk
  | [], _, _ => rfl
  | e :: l, d, h => by
    rw [List.foldl_cons,
      foldl_updateTilesStep_lookup_ne af qk l _
        (fun e' he' => h e' (List.mem_cons_of_mem _ he'))]
    show lookupKey (setKey d.tiles e.1 _) qk = _
    exact lookupKey_setKey_ne _ _ _ _ (h e (List.mem_cons_self _ _))

theorem foldl_quadkeyStep (qk : Quadkey) :
    ∀ t : Tile,
      qk.foldl (fun t d => ⟨2 * t.x + d % 2, 2 * t.y + d / 2, t.z + 1⟩) t =
        ⟨t.x * 2 ^ qk.length + (tmsQuadkeyToTile qk).x,
         t.y * 2 ^ qk.length + (tmsQuadkeyToTile qk).y,
         t.z + qk.length⟩ := by
  induction qk with
  | nil => intro t; cases t; simp [tmsQuadkeyToTile]
  | cons d qs ih =>
      intro t
      rw [List.foldl_cons, ih]
      have hrhs : tmsQuadkeyToTile (d :: qs) =
          ⟨(d % 2) * 2 ^ qs.length + (tmsQuadkeyToTile qs).x,
           (d / 2) * 2 ^ qs.length + (tmsQuadkeyToTile qs).y,
           1 + qs.length⟩ := by
        rw [tmsQuadkeyToTile, List.foldl_cons, ih]
        simp only [Tile.mk.injEq]
        refine ⟨by ring, by ring, trivial⟩
      rw [hrhs]
      simp only [Tile.mk.injEq, List.length_cons]
      refine ⟨by ring, by ring, ?_⟩
      show t.z + 1 + qs.length = t.z + (qs.length + 1)
      omega

theorem tmsQuadkeyToTile_z (qk : Quadkey) :
    (tmsQuadkeyToTile qk).z = qk.length := by
  rw [tmsQuadkeyToTile, foldl_quadkeyStep]
  show 0 + qk.length = qk.length
  omega

/-- The first-digit decomposition of `tmsQuadkeyToTile`. -/
theorem tmsQuadkeyToTile_cons (d : Nat) (qs : Quadkey) :
    tmsQuadkeyToTile (d :: qs) =
      ⟨(d % 2) * 2 ^ qs.length + (tmsQuadkeyToTile qs).x,
       (d / 2) * 2 ^ qs.length + (tmsQuadkeyToTile qs).y,
       1 + qs.length⟩ := by
  rw [tmsQuadkeyToTile, List.foldl_cons, foldl_quadkeyStep]
  simp only [Tile.mk.injEq]
  refine ⟨by ring, by ring, trivial⟩

theorem tmsQuadkeyToTile_lt (qk : Quadkey) (h : ∀ d ∈ qk, d < 4) :
    (tmsQuadkeyToTile qk).x < 2 ^ qk.length ∧
    (tmsQuadkeyToTile qk).y < 2 ^ qk.length := by
  induction qk with
  | nil => exact ⟨Nat.one_pos, Nat.one_pos⟩
  | cons d qs ih =>
      obtain ⟨h1, h2⟩ := ih (fun x hxm => h x (List.mem_cons_of_mem _ hxm))
      have hd : d < 4 := h d (List.mem_cons_self _ _)
      rw [tmsQuadkeyToTile_cons]
      simp only [List.length_cons, pow_succ]
      constructor
      · show d % 2 * 2 ^ qs.length + (tmsQuadkeyToTile qs).x <
          2 ^ qs.length * 2
        rcases Nat.mod_two_eq_zero_or_one d with hm | hm <;> rw [hm] <;> omega
      · show d / 2 * 2 ^ qs.length + (tmsQuadkeyToTile qs).y <
          2 ^ qs.length * 2
        interval_cases d <;> norm_num <;> omega

/-- The quadkey digits of `(x, y)` down from zoom `z` depend only on the
low `z` bits of each coordinate. -/
theorem tmsQuadkeyAux_mod (z : Nat) :
    ∀ x y : Nat, tmsQuadkeyAux (x % 2 ^ z) (y % 2 ^ z) z = tmsQuadkeyAux x y z := by
  induction z with
  | zero => intro x y; rfl
  | succ n ih =>
      intro x y
      rw [tmsQuadkeyAux, tmsQuadkeyAux]
      have hdig : ∀ w : Nat, (w % 2 ^ (n + 1)) >>> n % 2 = w >>> n % 2 := by
        intro w
        rw [Nat.shiftRight_eq_div_pow, Nat.shiftRight_eq_div_pow, pow_succ,
          Nat.mod_mul_right_div_self]
        exact Nat.mod_mod_of_dvd _ (dvd_refl 2)
      have tail : tmsQuadkeyAux (x % 2 ^ (n + 1)) (y % 2 ^ (n + 1)) n =
          tmsQuadkeyAux x y n := by
        rw [← ih (x % 2 ^ (n + 1)) (y % 2 ^ (n + 1)),
          Nat.mod_mod_of_dvd x (pow_dvd_pow 2 (Nat.le_succ n)),
          Nat.mod_mod_of_dvd y (pow_dvd_pow 2 (Nat.le_succ n)), ih]
      rw [hdig x, hdig y, tail]

/-- Round trip: converting a valid quadkey to its tile and back yields the
same quadkey. -/
theorem tmsQuadkey_tmsQuadkeyToTile (qk : Quadkey) (h : ∀ d ∈ qk, d < 4) :
    tmsQuadkey (tmsQuadkeyToTile qk) = qk := by
  induction qk with
  | nil => rfl
  | cons d qs ih =>
      have hd : d < 4 := h d (List.mem_cons_self _ _)
      have hrest : ∀ x ∈ qs, x < 4 := fun x hx => h x (List.mem_cons_of_mem _ hx)
      have hqs := ih hrest
      obtain ⟨hxlt, hylt⟩ := tmsQuadkeyToTile_lt qs hrest
      rw [tmsQuadkey, tmsQuadkeyToTile_cons]
      show tmsQuadkeyAux (d % 2 * 2 ^ qs.length + (tmsQuadkeyToTile qs).x)
        (d / 2 * 2 ^ qs.length + (tmsQuadkeyToTile qs).y) (1 + qs.length) =
        d :: qs
      rw [Nat.add_comm 1 qs.length, tmsQuadkeyAux]
      have hxmod : (d % 2 * 2 ^ qs.length + (tmsQuadkeyToTile qs).x) %
          2 ^ qs.length = (tmsQuadkeyToTile qs).x := by
        rw [Nat.mul_comm, Nat.mul_add_mod, Nat.mod_eq_of_lt hxlt]
      have hymod : (d / 2 * 2 ^ qs.length + (tmsQuadkeyToTile qs).y) %
          2 ^ qs.length = (tmsQuadkeyToTile qs).y := by
        rw [Nat.mul_comm, Nat.mul_add_mod, Nat.mod_eq_of_lt hylt]
      have hdiv : ∀ b w : Nat, w < 2 ^ qs.length →
          (b * 2 ^ qs.length + w) >>> qs.length = b := by
        intro b w hw
        rw [Nat.shiftRight_eq_div_pow, Nat.mul_comm,
          Nat.mul_add_div (Nat.pos_pow_of_pos _ (by omega)),
          Nat.div_eq_of_lt hw, Nat.add_zero]
      congr 1
      · rw [hdiv _ _ hxlt, hdiv _ _ hylt,
          Nat.mod_mod_of_dvd d (dvd_refl 2), Nat.mod_eq_of_lt (by omega : d / 2 < 2)]
        omega
      · rw [← tmsQuadkeyAux_mod, hxmod, hymod, ← tmsQuadkeyToTile_z qs]
        exact hqs

/-- `get_assets` queried at a valid quadkey's own tile resolves exactly that
quadkey and returns the deduplicated stored entry (absent → empty). -/
theorem get_assets_at_quadkey (d : MosaicDef) (qk : Quadkey)
    (hlen : qk.length = quadkey_zoomP d) (hdig : ∀ x ∈ qk, x < 4) :
    get_assets d (tmsQuadkeyToTile qk).x (tmsQuadkeyToTile qk).y
      (tmsQuadkeyToTile qk).z =
      dictFromKeys ((lookupKey d.tiles qk).getD []) := by
  have hz : (tmsQuadkeyToTile qk).z = quadkey_zoomP d := by
    rw [tmsQuadkeyToTile_z, hlen]
  have hfq : find_quadkeys (tmsQuadkeyToTile qk) (quadkey_zoomP d) = [qk] := by
    rw [find_quadkeys, if_neg (by omega), if_neg (by omega),
      tmsQuadkey_tmsQuadkeyToTile qk hdig]
  rw [get_assets]
  show dictFromKeys (((find_quadkeys (tmsQuadkeyToTile qk)
    (quadkey_zoomP d)).map
      (fun qk => (lookupKey d.tiles qk).getD [])).flatten) = _
  rw [hfq]
  simp

/-- The general shape of `update`'s per-key merge: the stored entry for a
candidate key becomes the new assets prepended or appended to the
deduplicated pre-existing assets for that key. -/
theorem update_lookup_general (B : Backend) (new_mosaic : MosaicDef)
    (af : Bool) (qk : Quadkey) (na : List String)
    (hnodup : (new_mosaic.tiles.map Prod.fst).Nodup)
    (hmem : (qk, na) ∈ new_mosaic.tiles)
    (hlen : qk.length = quadkey_zoomP B.mosaic_def)
    (hdig : ∀ x ∈ qk, x < 4) :
    lookupKey (update B new_mosaic af).mosaic_def.tiles qk =
      some (if af then
        na ++ dictFromKeys ((lookupKey B.mosaic_def.tiles qk).getD [])
      else
        dictFromKeys ((lookupKey B.mosaic_def.tiles qk).getD []) ++ na) := by
  obtain ⟨l₁, l₂, hsplit⟩ := List.append_of_mem hmem
  have hmid : qk ∉ l₁.map Prod.fst ∧ qk ∉ l₂.map Prod.fst := by
    rw [hsplit] at hnodup
    rw [List.map_append, List.map_cons] at hnodup
    have := (List.nodup_middle.mp hnodup)
    have hn := (List.nodup_cons.mp this).1
    rw [List.mem_append] at hn
    exact ⟨fun hc => hn (Or.inl hc), fun hc => hn (Or.inr hc)⟩
  have h₁ : ∀ e ∈ l₁, e.1 ≠ qk := by
    intro e he heq
    exact hmid.1 (heq ▸ List.mem_map_of_mem Prod.fst he)
  have h₂ : ∀ e ∈ l₂, e.1 ≠ qk := by
    intro e he heq
    exact hmid.2 (heq ▸ List.mem_map_of_mem Prod.fst he)
  have htiles : (update B new_mosaic af).mosaic_def.tiles =
      (new_mosaic.tiles.foldl (updateTilesStep af) B.mosaic_def).tiles := rfl
  rw [htiles, hsplit, List.foldl_append, List.foldl_cons]
  set d₁ := l₁.foldl (updateTilesStep af) B.mosaic_def with hd₁
  have hlook₁ : lookupKey d₁.tiles qk = lookupKey B.mosaic_def.tiles qk :=
    foldl_updateTilesStep_lookup_ne af qk l₁ B.mosaic_def h₁
  have hqz₁ : quadkey_zoomP d₁ = quadkey_zoomP B.mosaic_def :=
    quadkey_zoomP_foldl_updateTilesStep af l₁ B.mosaic_def
  have hstep : (updateTilesStep af d₁ (qk, na)).tiles =
      setKey d₁.tiles qk (if af then
        na ++ dictFromKeys ((lookupKey B.mosaic_def.tiles qk).getD [])
      else
        dictFromKeys ((lookupKey B.mosaic_def.tiles qk).getD []) ++ na) := by
    rw [updateTilesStep]
    have hga : get_assets d₁ (tmsQuadkeyToTile qk).x (tmsQuadkeyToTile qk).y
        (tmsQuadkeyToTile qk).z =
        dictFromKeys ((lookupKey B.mosaic_def.tiles qk).getD []) := by
      rw [get_assets_at_quadkey d₁ qk (by rw [hqz₁, hlen]) hdig, hlook₁]
    show setKey d₁.tiles qk (if af then na ++ get_assets d₁ _ _ _
      else get_assets d₁ _ _ _ ++ na) = _
    rw [hga]
  rw [foldl_updateTilesStep_lookup_ne af qk l₂ _ h₂]
  rw [hstep, lookupKey_setKey_self]

/-- C4: for a key of the candidate index whose pre-existing assets are
duplicate-free, `update` stores the new assets before the existing ones
when `add_first` is true and after them otherwise. -/
theorem update_merge_order (B : Backend) (new_mosaic : MosaicDef)
    (af : Bool) (qk : Quadkey) (na ex : List String)
    (hnodup : (new_mosaic.tiles.map Prod.fst).Nodup)
    (hmem : (qk, na) ∈ new_mosaic.tiles)
    (hlen : qk.length = quadkey_zoomP B.mosaic_def)
    (hdig : ∀ x ∈ qk, x < 4)
    (hex : (lookupKey B.mosaic_def.tiles qk).getD [] = ex)
    (hexnd : ex.Nodup) :
    lookupKey (update B new_mosaic af).mosaic_def.tiles qk =
      some (if af then na ++ ex else ex ++ na) := by
  rw [update_lookup_general B new_mosaic af qk na hnodup hmem hlen hdig, hex,
    dictFromKeys_eq_dedupFirst, dedupFirst_of_nodup ex hexnd]

/-- Witness for C4: key `0123` holding `["a.tif"]` updated with `["b.tif"]`
yields `["b.tif", "a.tif"]` with `add_first = true` and
`["a.tif", "b.tif"]` with `add_first = false`. -/
theorem update_merge_order_witness :
    lookupKey (update exBackC4 exNewC4 true).mosaic_def.tiles [0, 1, 2, 3] =
      some ["b.tif", "a.tif"] ∧
    lookupKey (update exBackC4 exNewC4 false).mosaic_def.tiles [0, 1, 2, 3] =
      some ["a.tif", "b.tif"] := by
  constructor
  · rw [update_merge_order exBackC4 exNewC4 true [0, 1, 2, 3] ["b.tif"]
      ["a.tif"] (by decide) (by decide) rfl (by decide) rfl (by decide)]
    rfl
  · rw [update_merge_order exBackC4 exNewC4 false [0, 1, 2, 3] ["b.tif"]
      ["a.tif"] (by decide) (by decide) rfl (by decide) rfl (by decide)]
    rfl

/-- Counterexample for C5: the stored entry `["a.tif", "a.tif"]` under key
`0` is read back through `get_assets`, which deduplicates it, so the merged
entry `["b.tif", "a.tif"]` does not keep the duplicate of the pre-existing
list — an entry is dropped, contradicting the claim. -/
theorem update_merge_no_dedup_counterexample :
    lookupKey (update exBackC5 exNewC5 true).mosaic_def.tiles [0] =
      some ["b.tif", "a.tif"] ∧
    (lookupKey exBackC5.mosaic_def.tiles [0]).getD [] =
      ["a.tif", "a.tif"] ∧
    (["a.tif", "a.tif"] : List String).count "a.tif" = 2 ∧
    (["b.tif", "a.tif"] : List String).count "a.tif" = 1 ∧
    ¬ ((["a.tif", "a.tif"] : List String).count "a.tif" ≤
        (["b.tif", "a.tif"] : List String).count "a.tif") := by
  refine ⟨rfl, rfl, by decide, by decide, by decide⟩

/-- C5 (amended): `update` keeps every element of the new asset list
(duplicates included) and never drops cross-list duplicates, but the
pre-existing list is read back through `get_assets` and therefore stored
deduplicated (first occurrence kept). -/
theorem update_merge_dedups_existing (B : Backend) (new_mosaic : MosaicDef)
    (af : Bool) (qk : Quadkey) (na : List String)
    (hnodup : (new_mosaic.tiles.map Prod.fst).Nodup)
    (hmem : (qk, na) ∈ new_mosaic.tiles)
    (hlen : qk.length = quadkey_zoomP B.mosaic_def)
    (hdig : ∀ x ∈ qk, x < 4) :
    lookupKey (update B new_mosaic af).mosaic_def.tiles qk =
      some (if af then
        na ++ dedupFirst ((lookupKey B.mosaic_def.tiles qk).getD [])
      else
        dedupFirst ((lookupKey B.mosaic_def.tiles qk).getD []) ++ na) := by
  rw [update_lookup_general B new_mosaic af qk na hnodup hmem hlen hdig]
  rw [dictFromKeys_eq_dedupFirst]

/-- Witness for the amended C5: with stored entry `["a.tif", "a.tif"]` and
new assets `["b.tif"]`, the merged entry is
`["b.tif"] ++ dedupFirst ["a.tif", "a.tif"] = ["b.tif", "a.tif"]`. -/
theorem update_merge_dedups_existing_witness :
    lookupKey (update exBackC5 exNewC5 true).mosaic_def.tiles [0] =
      some (["b.tif"] ++ dedupFirst ["a.tif", "a.tif"]) := by
  rw [update_merge_dedups_existing exBackC5 exNewC5 true [0] ["b.tif"]
    (by decide) (by decide) rfl (by decide)]
  rw [if_pos rfl]
  congr 1

/-- C6: after `update`, the document bounds are the component-wise union of
the old and new bounds (so they contain both), the center is the midpoint
of the new bounds at `minzoom`, the version is incremented, and the
backend's denormalized bounds agree. -/
theorem update_bounds_center_version (B : Backend) (new_mosaic : MosaicDef)
    (af : Bool) :
    (update B new_mosaic af).mosaic_def.bounds =
      bbox_union new_mosaic.bounds B.mosaic_def.bounds ∧
    bboxContains (update B new_mosaic af).mosaic_def.bounds
      B.mosaic_def.bounds ∧
    bboxContains (update B new_mosaic af).mosaic_def.bounds
      new_mosaic.bounds ∧
    (update B new_mosaic af).mosaic_def.center =
      (((update B new_mosaic af).mosaic_def.bounds.xmin +
        (update B new_mosaic af).mosaic_def.bounds.xmax) / 2,
       ((update B new_mosaic af).mosaic_def.bounds.ymin +
        (update B new_mosaic af).mosaic_def.bounds.ymax) / 2,
       B.mosaic_def.minzoom) ∧
    (update B new_mosaic af).mosaic_def.version =
      B.mosaic_def.version + 1 ∧
    (update B new_mosaic af).bounds =
      (update B new_mosaic af).mosaic_def.bounds := by
  obtain ⟨hver, hmin, -, -, hbnd, -⟩ :=
    foldl_updateTilesStep_fields af new_mosaic.tiles B.mosaic_def
  have hb : (update B new_mosaic af).mosaic_def.bounds =
      bbox_union new_mosaic.bounds
        (new_mosaic.tiles.foldl (updateTilesStep af) B.mosaic_def).bounds :=
    rfl
  rw [hbnd] at hb
  refine ⟨hb, ?_, ?_, ?_, ?_, ?_⟩
  · rw [hb]
    exact ⟨min_le_right _ _, min_le_right _ _, le_max_right _ _,
      le_max_right _ _⟩
  · rw [hb]
    exact ⟨min_le_left _ _, min_le_left _ _, le_max_left _ _,
      le_max_left _ _⟩
  · have hc : (update B new_mosaic af).mosaic_def.center =
        (((update B new_mosaic af).mosaic_def.bounds.xmin +
          (update B new_mosaic af).mosaic_def.bounds.xmax) / 2,
         ((update B new_mosaic af).mosaic_def.bounds.ymin +
          (update B new_mosaic af).mosaic_def.bounds.ymax) / 2,
         (new_mosaic.tiles.foldl (updateTilesStep af) B.mosaic_def).minzoom) :=
      rfl
    rw [hc, hmin]
  · have hv : (update B new_mosaic af).mosaic_def.version =
        (new_mosaic.tiles.foldl (updateTilesStep af) B.mosaic_def).version
          + 1 := rfl
    rw [hv, hver]
  · rfl

/-- Errors of the external read capability surface as `readError`, never as
`NoAssetFoundError`. -/
theorem mapError_ne_noAssetFound {ε α : Type} (r : Except ε α)
    (msg : String) :
    r.mapError (QueryError.readError) ≠
      Except.error (QueryError.noAssetFound msg) := by
  cases r <;> simp [Except.mapError]

/-- C7: `tile` raises `NoAssetFoundError` exactly when `get_assets` is
empty and `point` raises it exactly when the assets resolved for the
point's tile are empty; in both cases the result is fixed before — and
independently of — any per-asset read. -/
theorem tile_point_no_asset_found {ε α V : Type}
    (mosaicRead mosaicRead' : List String → Except ε α)
    (readPt readPt' : String → ℚ → ℚ → CRS → Except PtErr V)
    (T : CRS → CRS → ℚ × ℚ → ℚ × ℚ) (tileAt : ℚ → ℚ → Nat → Tile)
    (B : Backend) (x y z : Nat) (rev : Bool) (lon lat : ℚ)
    (coord_crs : CRS) :
    ((∃ msg, tileQuery mosaicRead B x y z rev =
        .error (.noAssetFound msg)) ↔
      get_assets B.mosaic_def x y z = []) ∧
    (get_assets B.mosaic_def x y z = [] →
      tileQuery mosaicRead B x y z rev =
        tileQuery mosaicRead' B x y z rev) ∧
    ((∃ msg, point T tileAt readPt B lon lat rev coord_crs =
        .error (.noAssetFound msg)) ↔
      assets_for_point T tileAt B lon lat = []) ∧
    (assets_for_point T tileAt B lon lat = [] →
      point T tileAt readPt B lon lat rev coord_crs =
        point T tileAt readPt' B lon lat rev coord_crs) := by
  refine ⟨⟨?_, ?_⟩, ?_, ⟨?_, ?_⟩, ?_⟩
  · rintro ⟨msg, hmsg⟩
    by_contra h
    simp only [tileQuery] at hmsg
    rw [if_neg h] at hmsg
    exact mapError_ne_noAssetFound _ _ hmsg
  · intro h
    refine ⟨"No assets found for tile", ?_⟩
    simp only [tileQuery]
    rw [if_pos h]
  · intro h
    simp only [tileQuery]
    rw [if_pos h, if_pos h]
  · rintro ⟨msg, hmsg⟩
    by_contra h
    simp only [point] at hmsg
    rw [if_neg h] at hmsg
    exact mapError_ne_noAssetFound _ _ hmsg
  · intro h
    refine ⟨"No assets found for point", ?_⟩
    simp only [point]
    rw [if_pos h]
  · intro h
    simp only [point]
    rw [if_pos h, if_pos h]

/-- Witness for C7 on a backend with an empty `tiles` mapping: both query
paths fail with `NoAssetFoundError`, whatever the reader does. -/
theorem tile_point_no_asset_found_witness :
    (∃ msg, tileQuery (fun l => (.ok l.length : Except Unit Nat))
        exBackC7 0 0 1 false = .error (.noAssetFound msg)) ∧
    tileQuery (fun l => (.ok l.length : Except Unit Nat))
        exBackC7 0 0 1 false =
      tileQuery (fun _ => (.error () : Except Unit Nat))
        exBackC7 0 0 1 false ∧
    (∃ msg, point exT9 exTileAt9 exReadC9 exBackC7 0 0 false WGS84_CRS =
        .error (.noAssetFound msg)) ∧
    point exT9 exTileAt9 exReadC9 exBackC7 0 0 false WGS84_CRS =
      point exT9 exTileAt9 exReadC8 exBackC7 0 0 false WGS84_CRS := by
  obtain ⟨h1, h2, h3, h4⟩ := tile_point_no_asset_found
    (fun l => (.ok l.length : Except Unit Nat))
    (fun _ => (.error () : Except Unit Nat)) exReadC9 exReadC8
    exT9 exTileAt9 exBackC7 0 0 1 false 0 0 WGS84_CRS
  exact ⟨h1.mpr rfl, h2 rfl, h3.mpr rfl, h4 rfl⟩

/-- C8 failing input: `point(lon = 1000000, lat = 2000000,
coord_crs = EPSG:3857)` on a backend whose geographic CRS is WGS84.  The
source resolves assets through `assets_for_point(lon, lat)` without
forwarding `coord_crs`, so the lookup tile is computed from the
untransformed coordinates and the query fails with `NoAssetFoundError`,
although the transformed point `(10, 20)` lies in a tile holding
`a.tif` — as `assets_for_point` itself shows when `coord_crs` is passed. -/
theorem point_coord_crs_not_forwarded :
    point exT8 exTileAt8 exReadC8 exBackC8 1000000 2000000 false EPSG3857 =
      .error (.noAssetFound "No assets found for point") ∧
    transform_point exT8 1000000 2000000 EPSG3857
      exBackC8.geographic_crs = (10, 20) ∧
    exTileAt8 10 20 (quadkey_zoomP exDocC8) = ⟨1, 1, 1⟩ ∧
    get_assets exDocC8 1 1 1 = ["a.tif"] ∧
    assets_for_point exT8 exTileAt8 exBackC8 1000000 2000000 EPSG3857 =
      ["a.tif"] := by
  have ht : transform_point exT8 1000000 2000000 EPSG3857
      exBackC8.geographic_crs = (10, 20) := by
    rw [transform_point, if_pos (by decide)]
    show ((1000000 : ℚ) / 100000, (2000000 : ℚ) / 100000) = (10, 20)
    norm_num
  refine ⟨rfl, ht, by decide, rfl, ?_⟩
  simp only [assets_for_point]
  rw [ht]
  rfl

/-- C9: a per-asset `PointOutsideBounds` failure is swallowed: the asset is
excluded from the result and the call succeeds with the remaining assets'
values. -/
theorem point_outside_coverage_swallowed {V : Type}
    (T : CRS → CRS → ℚ × ℚ → ℚ × ℚ) (tileAt : ℚ → ℚ → Nat → Tile)
    (readPt : String → ℚ → ℚ → CRS → Except PtErr V) (B : Backend)
    (lon lat : ℚ) (coord_crs : CRS) (a1 a2 : String) (v : V)
    (hassets : assets_for_point T tileAt B lon lat = [a1, a2])
    (h1 : readPt a1 (transform_point T lon lat coord_crs B.geographic_crs).1
        (transform_point T lon lat coord_crs B.geographic_crs).2
        B.geographic_crs = .error .pointOutsideBounds)
    (h2 : readPt a2 (transform_point T lon lat coord_crs B.geographic_crs).1
        (transform_point T lon lat coord_crs B.geographic_crs).2
        B.geographic_crs = .ok v) :
    point T tileAt readPt B lon lat false coord_crs = .ok [(a2, v)] := by
  simp only [point, hassets]
  rw [if_neg (by simp), if_neg (by simp)]
  simp only [multi_values, h1, h2]
  rfl

/-- Witness for C9: `a1.tif` reports outside coverage, `a2.tif` yields 7;
the call returns only `(a2.tif, 7)`. -/
theorem point_outside_coverage_swallowed_witness :
    point exT9 exTileAt9 exReadC9 exBackC9 (1/2) (1/2) false WGS84_CRS =
      .ok [("a2.tif", 7)] :=
  point_outside_coverage_swallowed exT9 exTileAt9 exReadC9 exBackC9
    (1/2) (1/2) WGS84_CRS "a1.tif" "a2.tif" 7 rfl rfl rfl

end CogeoMosaic
